import Mathlib

/-!
Shallow embedding of `typ/pool.py` (the job-dispatch engine of the `typ`
test runner) and verification of its specification.

Conventions of the embedding:
* Caller-supplied Python functions that may raise are modelled as Lean
  functions returning `Except String _`, the error carrying `str(e)`.
* The two multiprocessing queues are modelled as lists of tagged entries;
  an arbitrary arrival order of the workers' messages in the shared
  response queue is modelled by quantifying over interleavings.
* `copy.deepcopy` on the (pure) context value is the identity.
* Type parameters: `η` hosts, `α` initial contexts, `β` jobs (messages),
  `γ` callback results, `δ` derived contexts, `ε` final contexts.
-/

namespace Typ

/-- Entries of the dispatcher-to-worker requests queue: the payloads put by
`ProcessPool.send` (`(_MessageType.Request, msg)`) and by `ProcessPool.close`
(`(_MessageType.Close, None)`). -/
inductive ReqEntry (β : Type) where
  | request (msg : β)
  | close
deriving DecidableEq, Repr

/-- Entries of the worker-to-dispatcher responses queue, as put by `_loop`:
`(_MessageType.Response, resp)`, `(_MessageType.Done, post_fn(...))`, and
`(_MessageType.Error, (worker_num, str(e)))`. -/
inductive RespEntry (γ ε : Type) where
  | response (resp : γ)
  | done (final_context : ε)
  | error (worker_num : Nat) (descr : String)
deriving DecidableEq, Repr

/-- The `while True` request loop inside `_loop` (pool.py:153-159), run with
the already-computed `context_after_pre`.  Given the sequence of queue
entries this worker dequeues, it returns the successful callback results in
order, the description of the exception that escaped the callback (if any),
and whether a Close message was dequeued.  An exhausted entry list with no
Close means the worker is still blocked in `requests.get`. -/
def jobLoop (callback : δ → β → Except String γ) (context_after_pre : δ) :
    List (ReqEntry β) → List γ × Option String × Bool
  | [] => ([], none, false)
  | ReqEntry.close :: _ => ([], none, true)
  | ReqEntry.request j :: rest =>
    match callback context_after_pre j with
    | Except.error e => ([], some e, false)
    | Except.ok r =>
      let t := jobLoop callback context_after_pre rest
      (r :: t.1, t.2.1, t.2.2)

/-- Embedding of `_loop` (pool.py:146-168): the full lifetime of one worker,
returning the sequence of entries it puts on the responses queue.  An
exception in `pre_fn` or in the loop yields a single Error entry and no
Done; after a clean loop exit `post_fn` is attempted, a Done is emitted on
success and the failure is swallowed on error; a worker that never dequeues
a Close (it is still blocked) emits no terminal entry. -/
def loop (host : η) (worker_num : Nat) (callback : δ → β → Except String γ)
    (context : α) (pre_fn : η → Nat → α → Except String δ)
    (post_fn : δ → Except String ε) (reqs : List (ReqEntry β)) :
    List (RespEntry γ ε) :=
  match pre_fn host worker_num context with
  | Except.error e => [RespEntry.error worker_num e]
  | Except.ok context_after_pre =>
    let t := jobLoop callback context_after_pre reqs
    let resps := t.1.map RespEntry.response
    match t.2.1 with
    | some e => resps ++ [RespEntry.error worker_num e]
    | none =>
      if t.2.2 then
        match post_fn context_after_pre with
        | Except.ok fc => resps ++ [RespEntry.done fc]
        | Except.error _ => resps
      else resps

/-- Dispatcher state of the parallel variant (`ProcessPool.__init__`,
pool.py:57-71): `jobs` workers are spawned, the flags start out false.  The
`responses` field is the current content of the shared responses queue. -/
structure ProcessPool (γ ε : Type) where
  jobs : Nat
  responses : List (RespEntry γ ε)
  closed : Bool
  erred : Bool
deriving DecidableEq, Repr

/-- The message of the exception raised by `ProcessPool._handle_error`
(pool.py:111-114): `"error from worker %d: %s" % (worker_num, ex_str)`. -/
def errorFromWorker (worker_num : Nat) (ex_str : String) : String :=
  "error from worker " ++ toString worker_num ++ ": " ++ ex_str

/-- Outcome of `ProcessPool.get` (pool.py:77-82): a Response payload, the
pool-fatal exception raised by `_handle_error` on an Error entry, the
failing `assert` on a Done entry, or blocking on an empty queue. -/
inductive GetResult (γ ε : Type) where
  | value (resp : γ) (st : ProcessPool γ ε)
  | fatal (msg : String) (st : ProcessPool γ ε)
  | assertionFailed (st : ProcessPool γ ε)
  | wouldBlock
deriving Repr

/-- Embedding of `ProcessPool.get`.  The `block`/`timeout` arguments are
passed to `Queue.get`; in the model an empty queue is `wouldBlock`
regardless of them.  On an Error entry `_handle_error` sets `erred` on the
pool and raises. -/
def ProcessPool.get (st : ProcessPool γ ε) (block : Bool)
    (timeout : Option Nat) : GetResult γ ε :=
  match st.responses with
  | [] => GetResult.wouldBlock
  | RespEntry.response r :: rest =>
    GetResult.value r { st with responses := rest }
  | RespEntry.error wn s :: rest =>
    GetResult.fatal (errorFromWorker wn s)
      { st with responses := rest, erred := true }
  | RespEntry.done _ :: rest =>
    GetResult.assertionFailed { st with responses := rest }

/-- `n` consecutive successful calls of `ProcessPool.get`, collecting the
Response payloads in order; `none` if any of them does not return a value. -/
def ProcessPool.getN : ProcessPool γ ε → Nat → Option (List γ × ProcessPool γ ε)
  | st, 0 => some ([], st)
  | st, n + 1 =>
    match ProcessPool.get st true none with
    | GetResult.value r st' =>
      (ProcessPool.getN st' n).map fun p => (r :: p.1, p.2)
    | _ => none

/-- Embedding of `ProcessPool.close` (pool.py:84-88): one Close entry is
enqueued per worker (those entries appear in the workers' request streams)
and the pool is marked closed. -/
def ProcessPool.close (st : ProcessPool γ ε) : ProcessPool γ ε :=
  { st with closed := true }

/-- One step of the drain loop inside the graceful branch of
`ProcessPool.join` (pool.py:98-106): dequeue until a Done is found,
discarding Responses, raising on an Error, blocking if the queue runs dry. -/
inductive DrainStep (γ ε : Type) where
  | foundDone (final_context : ε) (rest : List (RespEntry γ ε))
  | foundError (worker_num : Nat) (descr : String)
  | empty
deriving Repr

/-- Dequeues from the responses queue until the first Done entry. -/
def drainNext : List (RespEntry γ ε) → DrainStep γ ε
  | [] => DrainStep.empty
  | RespEntry.done fc :: rest => DrainStep.foundDone fc rest
  | RespEntry.error wn s :: _ => DrainStep.foundError wn s
  | RespEntry.response _ :: rest => drainNext rest

/-- Result of `ProcessPool.join`: `ok terminatedAll final_responses` where
`terminatedAll` records whether the not-closed branch forcibly terminated
every worker; `fatal` is the exception raised by `_handle_error`; `blocked`
models `responses.get(True)` blocking forever. -/
inductive JoinResult (ε : Type) where
  | ok (terminatedAll : Bool) (final_responses : List ε)
  | fatal (msg : String)
  | blocked
deriving DecidableEq, Repr

/-- The `for w in self.workers` drain of the graceful branch of
`ProcessPool.join`: once per worker, dequeue until that iteration's Done and
append its payload to `final_responses`. -/
def joinGo : Nat → List (RespEntry γ ε) → List ε → JoinResult ε
  | 0, _, acc => JoinResult.ok false acc.reverse
  | n + 1, q, acc =>
    match drainNext q with
    | DrainStep.foundDone fc rest => joinGo n rest (fc :: acc)
    | DrainStep.foundError wn s => JoinResult.fatal (errorFromWorker wn s)
    | DrainStep.empty => JoinResult.blocked

/-- Embedding of `ProcessPool.join` (pool.py:90-109).  If the pool was not
closed, every worker is terminated and the empty list is returned; if it was
closed, the response queue is drained once per worker (`len(self.workers) =
self.jobs`). -/
def ProcessPool.join (st : ProcessPool γ ε) : JoinResult ε :=
  if st.closed then joinGo st.jobs st.responses [] else JoinResult.ok true []

/-- State of the in-process fallback variant (`AsyncPool.__init__`,
pool.py:117-127).  `context_after_pre` is `pre_fn(host, 1, deepcopy(context))`,
computed at construction time by `AsyncPool.make`. -/
structure AsyncPool (η α β γ δ ε : Type) where
  host : η
  jobs : Nat
  callback : δ → β → Except String γ
  context : α
  msgs : List β
  closed : Bool
  post_fn : δ → Except String ε
  context_after_pre : δ
  final_context : Option ε

/-- Embedding of `AsyncPool.__init__`: runs `pre_fn(host, 1, context)`
synchronously (note the literal worker index 1, pool.py:126); an exception
in `pre_fn` propagates out of the constructor. -/
def AsyncPool.make (host : η) (jobs : Nat) (callback : δ → β → Except String γ)
    (context : α) (pre_fn : η → Nat → α → Except String δ)
    (post_fn : δ → Except String ε) : Except String (AsyncPool η α β γ δ ε) :=
  match pre_fn host 1 context with
  | Except.error e => Except.error e
  | Except.ok cap =>
    Except.ok ⟨host, jobs, callback, context, [], false, post_fn, cap, none⟩

/-- `AsyncPool.send` (pool.py:129-130): append to the local message list. -/
def AsyncPool.send (p : AsyncPool η α β γ δ ε) (msg : β) :
    AsyncPool η α β γ δ ε :=
  { p with msgs := p.msgs ++ [msg] }

/-- A sequence of `AsyncPool.send` calls, in order. -/
def AsyncPool.sendAll (p : AsyncPool η α β γ δ ε) (ms : List β) :
    AsyncPool η α β γ δ ε :=
  ms.foldl AsyncPool.send p

/-- Outcome of `AsyncPool.get` (pool.py:132-134): the callback value, an
exception escaping the callback (the message has already been popped), or
the IndexError raised by `self.msgs.pop(0)` on an empty list. -/
inductive AsyncGetResult (η α β γ δ ε : Type) where
  | value (resp : γ) (p : AsyncPool η α β γ δ ε)
  | callbackError (e : String) (p : AsyncPool η α β γ δ ε)
  | indexError

/-- Embedding of `AsyncPool.get`: `block` and `timeout` are unused by the
source; the oldest message is popped and the callback applied to it with
the cached `context_after_pre`. -/
def AsyncPool.get (p : AsyncPool η α β γ δ ε) (block : Bool)
    (timeout : Option Nat) : AsyncGetResult η α β γ δ ε :=
  match p.msgs with
  | [] => AsyncGetResult.indexError
  | m :: rest =>
    match p.callback p.context_after_pre m with
    | Except.error e => AsyncGetResult.callbackError e { p with msgs := rest }
    | Except.ok r => AsyncGetResult.value r { p with msgs := rest }

/-- Embedding of `AsyncPool.close` (pool.py:136-138): runs `post_fn` on the
derived context and caches the final context; an exception propagates. -/
def AsyncPool.close (p : AsyncPool η α β γ δ ε) :
    Except String (AsyncPool η α β γ δ ε) :=
  match p.post_fn p.context_after_pre with
  | Except.error e => Except.error e
  | Except.ok fc => Except.ok { p with closed := true, final_context := some fc }

/-- Embedding of `AsyncPool.join` (pool.py:140-143): closes first if not yet
closed, then returns the single-element list of the cached final context. -/
def AsyncPool.join (p : AsyncPool η α β γ δ ε) :
    Except String (List (Option ε)) :=
  if p.closed then Except.ok [p.final_context]
  else (AsyncPool.close p).map fun p' => [p'.final_context]

/-- `n` consecutive `AsyncPool.get` calls, chaining the popped pool. -/
def AsyncPool.drain : Nat → AsyncPool η α β γ δ ε →
    List (AsyncGetResult η α β γ δ ε)
  | 0, _ => []
  | n + 1, p =>
    match AsyncPool.get p true none with
    | AsyncGetResult.value r p' =>
      AsyncGetResult.value r p' :: AsyncPool.drain n p'
    | AsyncGetResult.callbackError e p' =>
      AsyncGetResult.callbackError e p' :: AsyncPool.drain n p'
    | AsyncGetResult.indexError => [AsyncGetResult.indexError]

/-- The value returned by a successful `AsyncPool.get`, if any. -/
def asyncValue : AsyncGetResult η α β γ δ ε → Option γ
  | AsyncGetResult.value r _ => some r
  | _ => none

/-- The two pool variants `make_pool` can construct. -/
inductive MadePool (η α β γ δ ε : Type) where
  | process (p : ProcessPool γ ε)
  | async (p : AsyncPool η α β γ δ ε)

/-- Embedding of `make_pool` (pool.py:37-53).  Whether `pickle.dumps` raises
a `pickle.PickleError` on `pre_fn`/`post_fn` is not expressible over pure
Lean functions, so it is supplied as the two oracle booleans
`pre_fn_picklable`/`post_fn_picklable`; a failed probe raises the
corresponding `ValueError` before any pool object (and hence any worker)
is created.  `ProcessPool` is chosen for `jobs > 1`, `AsyncPool` otherwise. -/
def make_pool (host : η) (jobs : Nat) (callback : δ → β → Except String γ)
    (context : α) (pre_fn : η → Nat → α → Except String δ)
    (post_fn : δ → Except String ε)
    (pre_fn_picklable post_fn_picklable : Bool) :
    Except String (MadePool η α β γ δ ε) :=
  if !pre_fn_picklable then
    Except.error "pre_fn passed to make_pool is not picklable"
  else if !post_fn_picklable then
    Except.error "post_fn passed to make_pool is not picklable"
  else if jobs > 1 then
    Except.ok (MadePool.process ⟨jobs, [], false, false⟩)
  else
    (AsyncPool.make host jobs callback context pre_fn post_fn).map MadePool.async

/-- The Response payload of a responses-queue entry, if it is one. -/
def respPayload : RespEntry γ ε → Option γ
  | RespEntry.response r => some r
  | _ => none

/-- The Response payloads of a message list, in order. -/
def responsesOf (l : List (RespEntry γ ε)) : List γ :=
  l.filterMap respPayload

/-- The Done payload of a responses-queue entry, if it is one. -/
def donePayload : RespEntry γ ε → Option ε
  | RespEntry.done fc => some fc
  | _ => none

/-- The Done payloads of a message list, in order. -/
def donePayloads (l : List (RespEntry γ ε)) : List ε :=
  l.filterMap donePayload

/-- Whether a responses-queue entry is terminal (Done or Error). -/
def isTerminal : RespEntry γ ε → Bool
  | RespEntry.done _ => true
  | RespEntry.error _ _ => true
  | RespEntry.response _ => false

/-- The number of terminal entries a worker put on the responses queue. -/
def terminalCount (l : List (RespEntry γ ε)) : Nat :=
  (l.filter isTerminal).length

/-- Whether a responses-queue entry is an Error message. -/
def isErrorMsg : RespEntry γ ε → Bool
  | RespEntry.error _ _ => true
  | _ => false

/-- `Interleave2 a b c`: `c` is an order-preserving interleaving of `a` and
`b`, the possible arrival orders on a queue shared by two producers. -/
inductive Interleave2 {m : Type} : List m → List m → List m → Prop
  | nil : Interleave2 [] [] []
  | left {x : m} {xs ys zs : List m} :
      Interleave2 xs ys zs → Interleave2 (x :: xs) ys (x :: zs)
  | right {y : m} {xs ys zs : List m} :
      Interleave2 xs ys zs → Interleave2 xs (y :: ys) (y :: zs)

/-- `concatMapRange f n = f 0 ++ f 1 ++ ... ++ f (n-1)`. -/
def concatMapRange (f : Nat → List m) : Nat → List m
  | 0 => []
  | n + 1 => concatMapRange f n ++ f n

/-! Basic lemmas about the embedded operations. -/

theorem respPayload_response (r : γ) :
    respPayload (RespEntry.response r : RespEntry γ ε) = some r := rfl

theorem respPayload_done (fc : ε) :
    respPayload (RespEntry.done fc : RespEntry γ ε) = none := rfl

theorem donePayload_done (fc : ε) :
    donePayload (RespEntry.done fc : RespEntry γ ε) = some fc := rfl

theorem responsesOf_map_response (l : List γ) :
    responsesOf (l.map (RespEntry.response : γ → RespEntry γ ε)) = l := by
  induction l with
  | nil => rfl
  | cons r t ih => simp [responsesOf, List.filterMap_cons, respPayload] at ih ⊢; exact ih

theorem responsesOf_append (l₁ l₂ : List (RespEntry γ ε)) :
    responsesOf (l₁ ++ l₂) = responsesOf l₁ ++ responsesOf l₂ := by
  simp [responsesOf]

theorem donePayloads_map_response (l : List γ) :
    donePayloads (l.map (RespEntry.response : γ → RespEntry γ ε)) = [] := by
  induction l with
  | nil => rfl
  | cons r t ih => simpa [donePayloads, List.filterMap_cons, donePayload] using ih

theorem donePayloads_append (l₁ l₂ : List (RespEntry γ ε)) :
    donePayloads (l₁ ++ l₂) = donePayloads l₁ ++ donePayloads l₂ := by
  simp [donePayloads]

theorem terminalCount_map_response (l : List γ) :
    terminalCount (l.map (RespEntry.response : γ → RespEntry γ ε)) = 0 := by
  induction l with
  | nil => rfl
  | cons r t ih => simpa [terminalCount, List.filter_cons, isTerminal] using ih

theorem terminalCount_append (l₁ l₂ : List (RespEntry γ ε)) :
    terminalCount (l₁ ++ l₂) = terminalCount l₁ + terminalCount l₂ := by
  simp [terminalCount, List.filter_append]

/-- A fully successful pass through the request loop: every callback
succeeds and a Close is dequeued after the requests. -/
theorem jobLoop_map_ok (callback : δ → β → Except String γ) (d : δ)
    (g : β → γ) (js : List β)
    (hcb : ∀ a ∈ js, callback d a = Except.ok (g a)) :
    jobLoop callback d (js.map ReqEntry.request ++ [ReqEntry.close])
      = (js.map g, none, true) := by
  induction js with
  | nil => simp [jobLoop]
  | cons j t ih =>
    have hj := hcb j (List.mem_cons_self j t)
    simp only [List.map_cons, List.cons_append, jobLoop, hj, List.append_eq]
    rw [ih fun a ha => hcb a (List.mem_cons_of_mem _ ha)]

/-- A pass through the request loop in which the callback raises on job `j`
after succeeding on all of `js`; everything after `j` is never dequeued. -/
theorem jobLoop_map_err (callback : δ → β → Except String γ) (d : δ)
    (g : β → γ) (js : List β) (j : β) (e : String) (rest : List (ReqEntry β))
    (hcb : ∀ a ∈ js, callback d a = Except.ok (g a))
    (hj : callback d j = Except.error e) :
    jobLoop callback d (js.map ReqEntry.request ++ (ReqEntry.request j :: rest))
      = (js.map g, some e, false) := by
  induction js with
  | nil => simp [jobLoop, hj]
  | cons a t ih =>
    have ha := hcb a (List.mem_cons_self a t)
    simp only [List.map_cons, List.cons_append, jobLoop, ha, List.append_eq]
    rw [ih fun x hx => hcb x (List.mem_cons_of_mem _ hx)]

/-- A worker whose setup, callbacks and teardown all succeed emits its
responses in request order followed by a single Done. -/
theorem loop_clean (host : η) (worker_num : Nat)
    (callback : δ → β → Except String γ) (context : α)
    (pre_fn : η → Nat → α → Except String δ) (post_fn : δ → Except String ε)
    (dctx : δ) (g : β → γ) (fcv : ε) (js : List β)
    (hpre : pre_fn host worker_num context = Except.ok dctx)
    (hcb : ∀ a ∈ js, callback dctx a = Except.ok (g a))
    (hpost : post_fn dctx = Except.ok fcv) :
    loop host worker_num callback context pre_fn post_fn
        (js.map ReqEntry.request ++ [ReqEntry.close])
      = (js.map g).map RespEntry.response ++ [RespEntry.done fcv] := by
  simp [loop, hpre, jobLoop_map_ok callback dctx g js hcb, hpost]

/-- A worker whose teardown raises emits its responses and nothing else. -/
theorem loop_post_err (host : η) (worker_num : Nat)
    (callback : δ → β → Except String γ) (context : α)
    (pre_fn : η → Nat → α → Except String δ) (post_fn : δ → Except String ε)
    (dctx : δ) (g : β → γ) (e : String) (js : List β)
    (hpre : pre_fn host worker_num context = Except.ok dctx)
    (hcb : ∀ a ∈ js, callback dctx a = Except.ok (g a))
    (hpost : post_fn dctx = Except.error e) :
    loop host worker_num callback context pre_fn post_fn
        (js.map ReqEntry.request ++ [ReqEntry.close])
      = (js.map g).map RespEntry.response := by
  simp [loop, hpre, jobLoop_map_ok callback dctx g js hcb, hpost]

/-- A worker whose setup raises emits a single Error and nothing else. -/
theorem loop_pre_err (host : η) (worker_num : Nat)
    (callback : δ → β → Except String γ) (context : α)
    (pre_fn : η → Nat → α → Except String δ) (post_fn : δ → Except String ε)
    (e : String) (reqs : List (ReqEntry β))
    (hpre : pre_fn host worker_num context = Except.error e) :
    loop host worker_num callback context pre_fn post_fn reqs
      = [RespEntry.error worker_num e] := by
  simp [loop, hpre]

/-- A worker whose callback raises on job `j` emits the earlier responses,
then a single Error, and processes nothing that was enqueued after `j`. -/
theorem loop_callback_err (host : η) (worker_num : Nat)
    (callback : δ → β → Except String γ) (context : α)
    (pre_fn : η → Nat → α → Except String δ) (post_fn : δ → Except String ε)
    (dctx : δ) (g : β → γ) (e : String) (js : List β) (j : β)
    (rest : List (ReqEntry β))
    (hpre : pre_fn host worker_num context = Except.ok dctx)
    (hcb : ∀ a ∈ js, callback dctx a = Except.ok (g a))
    (hj : callback dctx j = Except.error e) :
    loop host worker_num callback context pre_fn post_fn
        (js.map ReqEntry.request ++ (ReqEntry.request j :: rest))
      = (js.map g).map RespEntry.response ++ [RespEntry.error worker_num e] := by
  simp [loop, hpre, jobLoop_map_err callback dctx g js j e rest hcb hj]

/-- Consecutive `ProcessPool.get` calls on a queue that starts with Response
entries return exactly their payloads, in queue order. -/
theorem getN_responses (rs : List γ) :
    ∀ (st : ProcessPool γ ε) (rest : List (RespEntry γ ε)),
    st.responses = rs.map RespEntry.response ++ rest →
    ProcessPool.getN st rs.length = some (rs, { st with responses := rest }) := by
  induction rs with
  | nil =>
    intro st rest h
    obtain ⟨jn, resp, c, e⟩ := st
    simp only [List.map_nil, List.nil_append] at h
    subst h
    rfl
  | cons r t ih =>
    intro st rest h
    have step := ih { st with responses := t.map RespEntry.response ++ rest } rest rfl
    simp [ProcessPool.getN, ProcessPool.get, h, step]

/-- A sequence of sends appends the messages, in order, to the local list,
touching nothing else in the pool. -/
theorem sendAll_spec (ms : List β) : ∀ (p : AsyncPool η α β γ δ ε),
    AsyncPool.sendAll p ms = { p with msgs := p.msgs ++ ms } := by
  induction ms with
  | nil => intro p; cases p; simp [AsyncPool.sendAll]
  | cons m t ih =>
    intro p
    have h0 : AsyncPool.sendAll p (m :: t)
        = AsyncPool.sendAll (AsyncPool.send p m) t := rfl
    rw [h0, ih]
    cases p
    simp [AsyncPool.send]

/-- Draining an `AsyncPool` whose callback succeeds on every queued message
returns, get by get, exactly the callback values of the messages in FIFO
order. -/
theorem drain_values (g : β → γ) (ms : List β) :
    ∀ (p : AsyncPool η α β γ δ ε), p.msgs = ms →
    (∀ j ∈ ms, p.callback p.context_after_pre j = Except.ok (g j)) →
    (AsyncPool.drain ms.length p).map asyncValue = ms.map fun j => some (g j) := by
  induction ms with
  | nil => intro p h hcb; simp [AsyncPool.drain]
  | cons m t ih =>
    intro p h hcb
    have hm := hcb m (List.mem_cons_self m t)
    have step := ih { p with msgs := t } rfl
      (fun j hj => hcb j (List.mem_cons_of_mem _ hj))
    simp [AsyncPool.drain, AsyncPool.get, h, hm, asyncValue, step]

/-- Any interleaving of two lists is a permutation of their concatenation. -/
theorem Interleave2.perm {a b c : List m} (h : Interleave2 a b c) :
    c.Perm (a ++ b) := by
  induction h with
  | nil => simp
  | left h ih => exact ih.cons _
  | right h ih => exact (ih.cons _).trans List.perm_middle.symm

/-- A queue whose entries are all Responses is the Response image of its
payload list. -/
theorem eq_map_responsesOf {q : List (RespEntry γ ε)}
    (h : ∀ x ∈ q, ∃ r, x = RespEntry.response r) :
    q = (responsesOf q).map RespEntry.response := by
  induction q with
  | nil => rfl
  | cons x t ih =>
    obtain ⟨r, rfl⟩ := h x (List.mem_cons_self x t)
    have := ih fun y hy => h y (List.mem_cons_of_mem _ hy)
    simp only [responsesOf, List.filterMap_cons, respPayload, List.map_cons]
    exact congrArg _ this

/-- The drain step of `ProcessPool.join` on an error-free queue finds the
first Done, discarding the Responses before it. -/
theorem drainNext_cons (q : List (RespEntry γ ε)) :
    ∀ (fc : ε) (ps : List ε),
    (∀ x ∈ q, isErrorMsg x = false) → donePayloads q = fc :: ps →
    ∃ rest, drainNext q = DrainStep.foundDone fc rest ∧
      donePayloads rest = ps ∧ ∀ x ∈ rest, isErrorMsg x = false := by
  induction q with
  | nil => intro fc ps _ hd; simp [donePayloads] at hd
  | cons x t ih =>
    intro fc ps hne hd
    cases x with
    | response r =>
      simp only [donePayloads, List.filterMap_cons, respPayload] at hd
      obtain ⟨rest, h1, h2, h3⟩ :=
        ih fc ps (fun y hy => hne y (List.mem_cons_of_mem _ hy)) hd
      exact ⟨rest, by simpa [drainNext] using h1, h2, h3⟩
    | done f =>
      simp only [donePayloads, List.filterMap_cons, donePayload] at hd
      obtain ⟨rfl, rfl⟩ : f = fc ∧ List.filterMap donePayload t = ps := by
        constructor <;> simp_all
      exact ⟨t, rfl, rfl, fun y hy => hne y (List.mem_cons_of_mem _ hy)⟩
    | error wn s =>
      have := hne (RespEntry.error wn s) (List.mem_cons_self _ t)
      simp [isErrorMsg] at this

/-- The graceful drain of `ProcessPool.join` on an error-free queue holding
exactly `n` Done entries collects their payloads in queue order. -/
theorem joinGo_ok (n : Nat) :
    ∀ (q : List (RespEntry γ ε)) (acc : List ε),
    (∀ x ∈ q, isErrorMsg x = false) → (donePayloads q).length = n →
    joinGo n q acc = JoinResult.ok false (acc.reverse ++ donePayloads q) := by
  induction n with
  | zero =>
    intro q acc hne hn
    have : donePayloads q = [] := List.length_eq_zero.1 hn
    simp [joinGo, this]
  | succ k ih =>
    intro q acc hne hn
    cases hd : donePayloads q with
    | nil => rw [hd] at hn; simp at hn
    | cons fc ps =>
      obtain ⟨rest, h1, h2, h3⟩ := drainNext_cons q fc ps hne hd
      have hlen : (donePayloads rest).length = k := by
        rw [h2]; rw [hd] at hn; simpa using hn
      simp [joinGo, h1, ih rest (fc :: acc) h3 hlen, h2, hd, List.append_assoc]

theorem concatMapRange_congr {f g : Nat → List m} (n : Nat)
    (h : ∀ i, i < n → f i = g i) :
    concatMapRange f n = concatMapRange g n := by
  induction n with
  | zero => rfl
  | succ k ih =>
    simp [concatMapRange, ih fun i hi => h i (Nat.lt_succ_of_lt hi),
      h k (Nat.lt_succ_self k)]

theorem filterMap_concatMapRange (f : m → Option m') (g : Nat → List m)
    (n : Nat) :
    List.filterMap f (concatMapRange g n)
      = concatMapRange (fun i => List.filterMap f (g i)) n := by
  induction n with
  | zero => rfl
  | succ k ih => simp [concatMapRange, ih]

theorem concatMapRange_singleton (f : Nat → m) (n : Nat) :
    concatMapRange (fun i => [f i]) n = (List.range n).map f := by
  induction n with
  | zero => rfl
  | succ k ih => simp [concatMapRange, List.range_succ, ih]

/-- A queue shared by `N` producers, modelled as a tag-annotated list whose
restriction to each tag is that producer's stream, is a permutation of the
streams laid end to end. -/
theorem tagged_perm {γ ε : Type} (N : Nat) :
    ∀ (tq : List (Nat × RespEntry γ ε)),
    (∀ p ∈ tq, p.1 < N) →
    (tq.map Prod.snd).Perm
      (concatMapRange (fun i => (tq.filter fun p => p.1 == i).map Prod.snd) N) := by
  induction N with
  | zero =>
    intro tq htags
    have : tq = [] := by
      cases tq with
      | nil => rfl
      | cons p t => exact absurd (htags p (List.mem_cons_self p t)) (Nat.not_lt_zero p.1)
    subst this
    simp [concatMapRange]
  | succ n ih =>
    intro tq htags
    have hsplit :
        ((tq.filter fun p => p.1 == n) ++ (tq.filter fun p => !(p.1 == n))).Perm tq :=
      List.filter_append_perm _ tq
    have htagsB : ∀ p ∈ tq.filter fun p => !(p.1 == n), p.1 < n := by
      intro p hp
      have hmem := (List.mem_filter.1 hp).1
      have hne : ¬(p.1 = n) := by simpa using (List.mem_filter.1 hp).2
      have hlt := htags p hmem
      omega
    have ihB := ih (tq.filter fun p => !(p.1 == n)) htagsB
    have hff : ∀ i, i < n →
        ((tq.filter fun p => !(p.1 == n)).filter fun p => p.1 == i)
          = tq.filter fun p => p.1 == i := by
      intro i hi
      rw [List.filter_filter]
      apply List.filter_congr
      intro p _
      by_cases h : p.1 = i
      · have hin : ¬(i = n) := by omega
        simp [h, hin]
      · simp [h]
    have hcongr :
        concatMapRange
            (fun i => ((tq.filter fun p => !(p.1 == n)).filter fun p => p.1 == i).map Prod.snd) n
          = concatMapRange (fun i => (tq.filter fun p => p.1 == i).map Prod.snd) n :=
      concatMapRange_congr n fun i hi => by rw [hff i hi]
    have s1 := (hsplit.map Prod.snd).symm
    rw [List.map_append] at s1
    rw [hcongr] at ihB
    have s3 := ihB.append_right ((tq.filter fun p => p.1 == n).map Prod.snd)
    have s4 := (s1.trans List.perm_append_comm).trans s3
    simpa [concatMapRange] using s4

/-! Concrete caller-supplied functions used to instantiate the theorems. -/

/-- Setup returning the worker index it was given. -/
def wnPre : Unit → Nat → Nat → Except String Nat :=
  fun _ worker_num _ => Except.ok worker_num

/-- Setup `setup(ctx) = ctx + 1`, ignoring host and worker index. -/
def incPre : Unit → Nat → Nat → Except String Nat :=
  fun _ _ c => Except.ok (c + 1)

/-- Setup that always raises. -/
def errPre : Unit → Nat → Nat → Except String Nat :=
  fun _ _ _ => Except.error "setup failed"

/-- Callback `callback(ctx, job) = ctx + job`. -/
def addCb : Nat → Nat → Except String Nat :=
  fun d j => Except.ok (d + j)

/-- Callback that always raises. -/
def failCb : Nat → Nat → Except String Nat :=
  fun _ _ => Except.error "boom"

/-- Teardown `teardown(ctx) = ctx`. -/
def idPost : Nat → Except String Nat :=
  fun d => Except.ok d

/-- Teardown that always raises. -/
def errPost : Nat → Except String Nat :=
  fun _ => Except.error "teardown failed"

/-- An `AsyncPool` with no unconsumed message. -/
def emptyAsyncPool : AsyncPool Unit Nat Nat Nat Nat Nat :=
  ⟨(), 1, addCb, 0, [], false, idPost, 1, none⟩

/-! The claims. -/

/-- C1: for every job submitted to either pool variant, the matching receive
returns exactly `callback(derived_context, job)`: a worker's Response stream
is `callback(context_after_pre, ·)` mapped over its requests in FIFO order
and `ProcessPool.get` hands those payloads back unchanged; for the
in-process variant, after any sequence of sends the i-th get returns
`callback(context_after_pre, m_i)` for the i-th message sent. -/
theorem C1_passthrough (host : η) (worker_num : Nat)
    (callback : δ → β → Except String γ) (context : α)
    (pre_fn : η → Nat → α → Except String δ) (post_fn : δ → Except String ε)
    (dctxW dctxA : δ) (gW gA : β → γ) (js ms : List β)
    (st : ProcessPool γ ε) (rest : List (RespEntry γ ε))
    (hpreW : pre_fn host worker_num context = Except.ok dctxW)
    (hcbW : ∀ a ∈ js, callback dctxW a = Except.ok (gW a))
    (hpreA : pre_fn host 1 context = Except.ok dctxA)
    (hcbA : ∀ a ∈ ms, callback dctxA a = Except.ok (gA a))
    (hst : st.responses = (js.map gW).map RespEntry.response ++ rest) :
    responsesOf (loop host worker_num callback context pre_fn post_fn
        (js.map ReqEntry.request ++ [ReqEntry.close])) = js.map gW
    ∧ ProcessPool.getN st js.length
        = some (js.map gW, { st with responses := rest })
    ∧ ∀ p, AsyncPool.make host 1 callback context pre_fn post_fn = Except.ok p →
        (AsyncPool.sendAll p ms).msgs = ms
        ∧ (AsyncPool.drain ms.length (AsyncPool.sendAll p ms)).map asyncValue
            = ms.map fun a => some (gA a) := by
  refine ⟨?_, ?_, ?_⟩
  · cases hpost : post_fn dctxW with
    | ok fc =>
      rw [loop_clean host worker_num callback context pre_fn post_fn dctxW gW
        fc js hpreW hcbW hpost, responsesOf_append, responsesOf_map_response]
      simp [responsesOf, List.filterMap_cons, respPayload]
    | error e =>
      rw [loop_post_err host worker_num callback context pre_fn post_fn dctxW gW
        e js hpreW hcbW hpost, responsesOf_map_response]
  · have h := getN_responses (js.map gW) st rest hst
    rwa [List.length_map] at h
  · intro p hp
    unfold AsyncPool.make at hp
    rw [hpreA] at hp
    cases hp
    rw [sendAll_spec]
    exact ⟨by simp, drain_values gA ms _ (by simp) hcbA⟩

/-- C1 witness: the passthrough at concrete inputs (worker 0 of the parallel
variant with jobs `[7, 8]` and derived context `0`; the in-process variant
with messages `[3, 4]` and derived context `1`). -/
theorem C1_witness :
    responsesOf (loop () 0 addCb 0 wnPre idPost
        [ReqEntry.request 7, ReqEntry.request 8, ReqEntry.close]) = [7, 8]
    ∧ ProcessPool.getN
        (⟨1, [RespEntry.response 7, RespEntry.response 8], false, false⟩ :
          ProcessPool Nat Nat) 2
        = some ([7, 8], (⟨1, [], false, false⟩ : ProcessPool Nat Nat))
    ∧ (AsyncPool.sendAll ⟨(), 1, addCb, 0, [], false, idPost, 1, none⟩
        [3, 4]).msgs = [3, 4]
    ∧ (AsyncPool.drain 2 (AsyncPool.sendAll
        ⟨(), 1, addCb, 0, [], false, idPost, 1, none⟩ [3, 4])).map asyncValue
        = [some 4, some 5] := by
  have h := C1_passthrough () 0 addCb 0 wnPre idPost 0 1
    (fun a => 0 + a) (fun a => 1 + a) [7, 8] [3, 4]
    ⟨1, [RespEntry.response 7, RespEntry.response 8], false, false⟩ []
    rfl (fun a _ => rfl) rfl (fun a _ => rfl) rfl
  exact ⟨h.1, h.2.1, (h.2.2 _ rfl).1, (h.2.2 _ rfl).2⟩

/-- C3: any exception in setup or in the job loop yields exactly one Error
message carrying the worker index and the description, with no jobs
processed after the failure, and in every execution a worker emits at most
one terminal message (Done or Error), never both. -/
theorem C3_worker_fatal (host : η) (worker_num : Nat)
    (callback : δ → β → Except String γ) (context : α)
    (pre_fn : η → Nat → α → Except String δ) (post_fn : δ → Except String ε)
    (reqs : List (ReqEntry β)) :
    terminalCount (loop host worker_num callback context pre_fn post_fn reqs) ≤ 1
    ∧ (∀ e, pre_fn host worker_num context = Except.error e →
        loop host worker_num callback context pre_fn post_fn reqs
          = [RespEntry.error worker_num e])
    ∧ ∀ (dctx : δ) (g : β → γ) (js : List β) (j : β) (e : String)
        (rest : List (ReqEntry β)),
        pre_fn host worker_num context = Except.ok dctx →
        (∀ a ∈ js, callback dctx a = Except.ok (g a)) →
        callback dctx j = Except.error e →
        loop host worker_num callback context pre_fn post_fn
            (js.map ReqEntry.request ++ (ReqEntry.request j :: rest))
          = (js.map g).map RespEntry.response
              ++ [RespEntry.error worker_num e] := by
  refine ⟨?_, ?_, ?_⟩
  · simp only [loop]
    split
    · simp [terminalCount, List.filter_cons, isTerminal]
    · split
      · simp [terminalCount_append, terminalCount_map_response,
          terminalCount, List.filter_cons, isTerminal]
      · split
        · split
          · simp [terminalCount_append, terminalCount_map_response,
              terminalCount, List.filter_cons, isTerminal]
          · simp [terminalCount_map_response]
        · simp [terminalCount_map_response]
  · intro e he
    exact loop_pre_err host worker_num callback context pre_fn post_fn e reqs he
  · intro dctx g js j e rest h1 h2 h3
    exact loop_callback_err host worker_num callback context pre_fn post_fn
      dctx g e js j rest h1 h2 h3

/-- C3 witness: a failing setup yields a single Error message, and a
callback failing on the first job yields a single Error message even with
another request still queued behind it. -/
theorem C3_witness :
    loop () 0 addCb 0 errPre idPost [ReqEntry.request 1]
      = [RespEntry.error 0 "setup failed"]
    ∧ loop () 0 failCb 0 wnPre idPost
        [ReqEntry.request 9, ReqEntry.request 7]
      = [RespEntry.error 0 "boom"] := by
  refine ⟨(C3_worker_fatal () 0 addCb 0 errPre idPost
    [ReqEntry.request 1]).2.1 "setup failed" rfl, ?_⟩
  have h := (C3_worker_fatal () 0 failCb 0 wnPre idPost []).2.2
    0 (fun a => a) [] 9 "boom" [ReqEntry.request 7] rfl (by simp) rfl
  simpa using h

/-- C2 counterexample: with two workers whose teardown results are their
worker indices and no jobs, the interleaving in which worker 1's Done
reaches the shared queue first is a legitimate execution (the filtered
streams are exactly the two workers' `loop` outputs), yet `join` returns
`[1, 0]` — not the worker-index order `[0, 1]` the claim requires. -/
theorem C2_counterexample :
    (([((1 : Nat), RespEntry.done (1 : Nat)), (0, RespEntry.done 0)].filter
        fun p => p.1 == 0).map Prod.snd
      = loop () 0 addCb 0 wnPre idPost [ReqEntry.close])
    ∧ (([((1 : Nat), RespEntry.done (1 : Nat)), (0, RespEntry.done 0)].filter
        fun p => p.1 == 1).map Prod.snd
      = loop () 1 addCb 0 wnPre idPost [ReqEntry.close])
    ∧ ProcessPool.join
        (⟨2, [RespEntry.done 1, RespEntry.done 0], true, false⟩ :
          ProcessPool Nat Nat)
      = JoinResult.ok false [1, 0]
    ∧ ([1, 0] : List Nat) ≠ [0, 1] :=
  ⟨rfl, rfl, rfl, by decide⟩

/-- C2 (amended): if a pool with parallelism `N` is closed before `join` and
every worker reaches teardown successfully, `join` returns exactly `N` final
contexts, one per worker — a permutation of the per-worker teardown results
— in the order the workers' Done messages reached the shared response
queue (not necessarily worker-index order).  The shared queue is a
tag-annotated list whose restriction to tag `i` is worker `i`'s `loop`
output. -/
theorem C2_graceful_join (N : Nat) (host : η)
    (callback : δ → β → Except String γ) (context : α)
    (pre_fn : η → Nat → α → Except String δ) (post_fn : δ → Except String ε)
    (dctx : Nat → δ) (g : Nat → β → γ) (fc : Nat → ε) (js : Nat → List β)
    (tq : List (Nat × RespEntry γ ε))
    (hpre : ∀ i, i < N → pre_fn host i context = Except.ok (dctx i))
    (hcb : ∀ i, i < N → ∀ a ∈ js i, callback (dctx i) a = Except.ok (g i a))
    (hpost : ∀ i, i < N → post_fn (dctx i) = Except.ok (fc i))
    (htags : ∀ p ∈ tq, p.1 < N)
    (hstream : ∀ i, i < N →
        (tq.filter fun p => p.1 == i).map Prod.snd
          = loop host i callback context pre_fn post_fn
              ((js i).map ReqEntry.request ++ [ReqEntry.close])) :
    ∃ finals, ProcessPool.join ⟨N, tq.map Prod.snd, true, false⟩
        = JoinResult.ok false finals
      ∧ finals.Perm ((List.range N).map fc) ∧ finals.length = N := by
  have hstream' : ∀ i, i < N →
      (tq.filter fun p => p.1 == i).map Prod.snd
        = ((js i).map (g i)).map RespEntry.response
            ++ [RespEntry.done (fc i)] := by
    intro i hi
    rw [hstream i hi, loop_clean host i callback context pre_fn post_fn
      (dctx i) (g i) (fc i) (js i) (hpre i hi) (hcb i hi) (hpost i hi)]
  have hmem : ∀ x ∈ tq.map Prod.snd, isErrorMsg x = false := by
    intro x hx
    obtain ⟨p, hp, rfl⟩ := List.mem_map.1 hx
    have hpf : p ∈ tq.filter fun q => q.1 == p.1 :=
      List.mem_filter.2 ⟨hp, by simp⟩
    have hx2 : p.2 ∈ (tq.filter fun q => q.1 == p.1).map Prod.snd :=
      List.mem_map_of_mem Prod.snd hpf
    rw [hstream' p.1 (htags p hp)] at hx2
    rcases List.mem_append.1 hx2 with h | h
    · obtain ⟨r, _, hr⟩ := List.mem_map.1 h
      rw [← hr]
      rfl
    · rw [List.mem_singleton.1 h]
      rfl
  have h1 : ∀ i, i < N →
      List.filterMap donePayload ((tq.filter fun p => p.1 == i).map Prod.snd)
        = [fc i] := by
    intro i hi
    rw [hstream' i hi]
    show donePayloads (((js i).map (g i)).map RespEntry.response
      ++ [RespEntry.done (fc i)]) = [fc i]
    rw [donePayloads_append, donePayloads_map_response]
    rfl
  have hdp := (tagged_perm N tq htags).filterMap donePayload
  rw [filterMap_concatMapRange, concatMapRange_congr N h1,
    concatMapRange_singleton] at hdp
  have hdone : (donePayloads (tq.map Prod.snd)).Perm ((List.range N).map fc) :=
    hdp
  have hlen : (donePayloads (tq.map Prod.snd)).length = N := by
    rw [hdone.length_eq]
    simp
  refine ⟨donePayloads (tq.map Prod.snd), ?_, hdone, hlen⟩
  have hjoin := joinGo_ok N (tq.map Prod.snd) [] hmem hlen
  show ProcessPool.join ⟨N, tq.map Prod.snd, true, false⟩ = _
  unfold ProcessPool.join
  simpa using hjoin

/-- C2 witness: two workers with teardown results 0 and 1 and no jobs, whose
Done messages arrive in the order worker 1, worker 0; join yields both final
contexts, a permutation of `[0, 1]`. -/
theorem C2_witness :
    ∃ finals, ProcessPool.join
        (⟨2, [RespEntry.done (1 : Nat), RespEntry.done 0], true, false⟩ :
          ProcessPool Nat Nat)
      = JoinResult.ok false finals
      ∧ finals.Perm ((List.range 2).map fun i => i) ∧ finals.length = 2 := by
  have h := C2_graceful_join 2 () addCb 0 wnPre idPost (fun i => i)
    (fun i a => i + a) (fun i => i) (fun _ => [])
    [((1 : Nat), RespEntry.done (1 : Nat)), (0, RespEntry.done 0)]
    (fun i _ => rfl) (fun i _ a ha => absurd ha (List.not_mem_nil a))
    (fun i _ => rfl) (by decide) (by decide)
  simpa using h

/-- C4 counterexample: with setup returning the worker index it is given,
the parallel variant's single worker (index 0, `range(1)`) answers job 5
with `0 + 5 = 5`, while the in-process variant — whose constructor calls
`pre_fn(host, 1, context)` — answers `1 + 5 = 6`: the receive outputs
differ, so they are not identical "including the worker index passed to
setup". -/
theorem C4_counterexample :
    responsesOf (loop () 0 addCb 0 wnPre idPost
        [ReqEntry.request 5, ReqEntry.close]) = [5]
    ∧ (AsyncPool.make () 1 addCb 0 wnPre idPost).map
        (fun p => (AsyncPool.drain 1 (AsyncPool.sendAll p [5])).map asyncValue)
      = Except.ok [some 6]
    ∧ (AsyncPool.make () 1 addCb 0 wnPre idPost).map
        (fun p => p.context_after_pre) = Except.ok 1
    ∧ wnPre () 0 0 = Except.ok 0
    ∧ ([5] : List Nat).map some ≠ [some 6] :=
  ⟨rfl, rfl, rfl, rfl, by decide⟩

/-- C4 (amended): for parallelism 1 the two variants produce identical
receive outputs for the same submissions and the same (callback, context,
setup, teardown) — provided setup yields the same derived context for the
worker index 0 that the parallel variant's single worker receives and the
worker index 1 that the in-process variant passes (the two indices differ,
so this holds e.g. whenever setup ignores its worker-index argument). -/
theorem C4_single_worker_equiv (hostW hostA : η)
    (callback : δ → β → Except String γ) (context : α)
    (pre_fn : η → Nat → α → Except String δ) (post_fn : δ → Except String ε)
    (dctx : δ) (g : β → γ) (ms : List β)
    (hpreW : pre_fn hostW 0 context = Except.ok dctx)
    (hpreA : pre_fn hostA 1 context = Except.ok dctx)
    (hcb : ∀ a ∈ ms, callback dctx a = Except.ok (g a)) :
    responsesOf (loop hostW 0 callback context pre_fn post_fn
        (ms.map ReqEntry.request ++ [ReqEntry.close])) = ms.map g
    ∧ (∀ st : ProcessPool γ ε,
        st.responses = (ms.map g).map RespEntry.response →
        ProcessPool.getN st ms.length
          = some (ms.map g, { st with responses := [] }))
    ∧ ∀ p, AsyncPool.make hostA 1 callback context pre_fn post_fn
          = Except.ok p →
        (AsyncPool.drain ms.length (AsyncPool.sendAll p ms)).map asyncValue
          = ms.map fun a => some (g a) := by
  refine ⟨?_, ?_, ?_⟩
  · cases hpost : post_fn dctx with
    | ok fc =>
      rw [loop_clean hostW 0 callback context pre_fn post_fn dctx g
        fc ms hpreW hcb hpost, responsesOf_append, responsesOf_map_response]
      simp [responsesOf, List.filterMap_cons, respPayload]
    | error e =>
      rw [loop_post_err hostW 0 callback context pre_fn post_fn dctx g
        e ms hpreW hcb hpost, responsesOf_map_response]
  · intro st hst
    have h := getN_responses (ms.map g) st []
      (by rw [hst, List.append_nil])
    rwa [List.length_map] at h
  · intro p hp
    unfold AsyncPool.make at hp
    rw [hpreA] at hp
    cases hp
    rw [sendAll_spec]
    exact drain_values g ms _ (by simp) hcb

/-- C4 witness: with setup `ctx + 1` (independent of the worker index), both
variants answer the single job 5 with 6. -/
theorem C4_witness :
    responsesOf (loop () 0 addCb 0 incPre idPost
        [ReqEntry.request 5, ReqEntry.close]) = [6]
    ∧ ProcessPool.getN
        (⟨1, [RespEntry.response 6], false, false⟩ : ProcessPool Nat Nat) 1
      = some ([6], (⟨1, [], false, false⟩ : ProcessPool Nat Nat))
    ∧ (AsyncPool.drain 1 (AsyncPool.sendAll
        ⟨(), 1, addCb, 0, [], false, idPost, 1, none⟩ [5])).map asyncValue
      = [some 6] := by
  have h := C4_single_worker_equiv () () addCb 0 incPre idPost 1
    (fun a => 1 + a) [5] rfl rfl (fun a _ => rfl)
  exact ⟨h.1, h.2.1 _ rfl, h.2.2 _ rfl⟩

/-- C5 counterexample: the concrete scenario's actual outputs.  With the
split in which worker 0 runs jobs `[1, 2]` and worker 1 runs `[3, 4]`
(derived context 1 on each worker), draining the four responses yields
`[2, 3, 4, 5]`, which is not a permutation of the claimed multiset
`{2, 3, 3, 4}`. -/
theorem C5_counterexample :
    loop () 0 addCb 0 incPre idPost
        [ReqEntry.request 1, ReqEntry.request 2, ReqEntry.close]
      = [RespEntry.response 2, RespEntry.response 3, RespEntry.done 1]
    ∧ loop () 1 addCb 0 incPre idPost
        [ReqEntry.request 3, ReqEntry.request 4, ReqEntry.close]
      = [RespEntry.response 4, RespEntry.response 5, RespEntry.done 1]
    ∧ ProcessPool.getN
        (⟨2, [RespEntry.response 2, RespEntry.response 3,
          RespEntry.response 4, RespEntry.response 5], false, false⟩ :
            ProcessPool Nat Nat) 4
      = some ([2, 3, 4, 5], (⟨2, [], false, false⟩ : ProcessPool Nat Nat))
    ∧ ¬ ([2, 3, 4, 5] : List Nat).Perm [2, 3, 3, 4] :=
  ⟨rfl, rfl, rfl, by decide⟩

/-- C5 (amended): parallelism 2, initial context 0, `setup(ctx) = ctx + 1`,
`callback(ctx, job) = ctx + job`, `teardown(ctx) = ctx`: for every split of
the jobs `[1, 2, 3, 4]` between the two workers and every arrival order of
the responses, draining all four responses yields the multiset
`{2, 3, 4, 5}` (each worker's derived context is 1, added to its assigned
jobs) — not `{2, 3, 3, 4}` — and a subsequent `close(); join()` returns
`[1, 1]`. -/
theorem C5_concrete_scenario (js0 js1 : List Nat)
    (q dq : List (RespEntry Nat Nat))
    (hjs : Interleave2 js0 js1 [1, 2, 3, 4])
    (hq : Interleave2 ((js0.map fun j => 1 + j).map RespEntry.response)
        ((js1.map fun j => 1 + j).map RespEntry.response) q)
    (hdq : Interleave2 [RespEntry.done 1] [RespEntry.done 1] dq) :
    loop () 0 addCb 0 incPre idPost
        (js0.map ReqEntry.request ++ [ReqEntry.close])
      = ((js0.map fun j => 1 + j).map RespEntry.response)
          ++ [RespEntry.done 1]
    ∧ loop () 1 addCb 0 incPre idPost
        (js1.map ReqEntry.request ++ [ReqEntry.close])
      = ((js1.map fun j => 1 + j).map RespEntry.response)
          ++ [RespEntry.done 1]
    ∧ (∃ st, ProcessPool.getN
        (⟨2, q, false, false⟩ : ProcessPool Nat Nat) 4
          = some (responsesOf q, st)
        ∧ (responsesOf q).Perm [2, 3, 4, 5])
    ∧ ProcessPool.join (⟨2, dq, true, false⟩ : ProcessPool Nat Nat)
        = JoinResult.ok false [1, 1] := by
  have hw0 := loop_clean () 0 addCb 0 incPre idPost 1 (fun j => 1 + j) 1 js0
    rfl (fun a _ => rfl) rfl
  have hw1 := loop_clean () 1 addCb 0 incPre idPost 1 (fun j => 1 + j) 1 js1
    rfl (fun a _ => rfl) rfl
  refine ⟨hw0, hw1, ?_, ?_⟩
  · have hmemq : ∀ x ∈ q, ∃ r, x = RespEntry.response r := by
      intro x hx
      have hx2 := hq.perm.mem_iff.1 hx
      rcases List.mem_append.1 hx2 with h | h
      · obtain ⟨r, _, hr⟩ := List.mem_map.1 h
        exact ⟨r, hr.symm⟩
      · obtain ⟨r, _, hr⟩ := List.mem_map.1 h
        exact ⟨r, hr.symm⟩
    have hqe := eq_map_responsesOf hmemq
    have hperm : (responsesOf q).Perm [2, 3, 4, 5] := by
      have p1 := hq.perm.filterMap respPayload
      have p2 : List.filterMap respPayload
          (((js0.map fun j => 1 + j).map
              (RespEntry.response : Nat → RespEntry Nat Nat))
            ++ ((js1.map fun j => 1 + j).map
              (RespEntry.response : Nat → RespEntry Nat Nat)))
          = (js0 ++ js1).map fun j => 1 + j := by
        show responsesOf _ = _
        rw [responsesOf_append, responsesOf_map_response,
          responsesOf_map_response, List.map_append]
      rw [p2] at p1
      have p3 : (js0 ++ js1).Perm [1, 2, 3, 4] := hjs.perm.symm
      exact p1.trans (p3.map fun j => 1 + j)
    have hlen4 : (responsesOf q).length = 4 := by
      rw [hperm.length_eq]
      rfl
    have hget := getN_responses (responsesOf q)
      (⟨2, q, false, false⟩ : ProcessPool Nat Nat) []
      (by show q = _ ++ _; rw [List.append_nil]; exact hqe)
    rw [hlen4] at hget
    exact ⟨_, hget, hperm⟩
  · have hdq' : dq = [RespEntry.done 1, RespEntry.done 1] := by
      cases hdq with
      | left h1 =>
        cases h1 with
        | right h2 => cases h2; rfl
      | right h1 =>
        cases h1 with
        | left h2 => cases h2; rfl
    rw [hdq']
    rfl

/-- C5 witness: the canonical split (worker 0 gets `[1, 2]`, worker 1 gets
`[3, 4]`) and the arrival order worker 0 first. -/
theorem C5_witness :
    loop () 0 addCb 0 incPre idPost
        [ReqEntry.request 1, ReqEntry.request 2, ReqEntry.close]
      = [RespEntry.response 2, RespEntry.response 3, RespEntry.done 1]
    ∧ loop () 1 addCb 0 incPre idPost
        [ReqEntry.request 3, ReqEntry.request 4, ReqEntry.close]
      = [RespEntry.response 4, RespEntry.response 5, RespEntry.done 1]
    ∧ (∃ st, ProcessPool.getN
        (⟨2, [RespEntry.response 2, RespEntry.response 3,
          RespEntry.response 4, RespEntry.response 5], false, false⟩ :
            ProcessPool Nat Nat) 4
          = some (responsesOf ([RespEntry.response 2, RespEntry.response 3,
              RespEntry.response 4, RespEntry.response 5] :
                List (RespEntry Nat Nat)), st)
        ∧ (responsesOf ([RespEntry.response 2, RespEntry.response 3,
            RespEntry.response 4, RespEntry.response 5] :
              List (RespEntry Nat Nat))).Perm [2, 3, 4, 5])
    ∧ ProcessPool.join
        (⟨2, [RespEntry.done 1, RespEntry.done 1], true, false⟩ :
          ProcessPool Nat Nat)
      = JoinResult.ok false [1, 1] :=
  C5_concrete_scenario [1, 2] [3, 4] _ _
    (Interleave2.left (Interleave2.left (Interleave2.right
      (Interleave2.right Interleave2.nil))))
    (Interleave2.left (Interleave2.left (Interleave2.right
      (Interleave2.right Interleave2.nil))))
    (Interleave2.left (Interleave2.right Interleave2.nil))

/-- C6: calling `join` on a pool that was never closed forcibly terminates
every worker without waiting and returns the empty list of final contexts,
whatever is still sitting unprocessed in the queues. -/
theorem C6_abnormal_join (st : ProcessPool γ ε) (h : st.closed = false) :
    ProcessPool.join st = JoinResult.ok true [] := by
  simp [ProcessPool.join, h]

/-- C6 witness: an unclosed pool with an undelivered response still joins to
the empty list, terminating the workers. -/
theorem C6_witness :
    ProcessPool.join
        (⟨2, [RespEntry.response (9 : Nat)], false, false⟩ : ProcessPool Nat Nat)
      = JoinResult.ok true [] :=
  C6_abnormal_join _ rfl

/-- C7: a worker whose setup and job loop succeed but whose teardown raises
emits no Done and no Error: the failure is swallowed and never reported. -/
theorem C7_teardown_swallowed (host : η) (worker_num : Nat)
    (callback : δ → β → Except String γ) (context : α)
    (pre_fn : η → Nat → α → Except String δ) (post_fn : δ → Except String ε)
    (dctx : δ) (g : β → γ) (js : List β) (e : String)
    (hpre : pre_fn host worker_num context = Except.ok dctx)
    (hcb : ∀ a ∈ js, callback dctx a = Except.ok (g a))
    (hpost : post_fn dctx = Except.error e) :
    loop host worker_num callback context pre_fn post_fn
        (js.map ReqEntry.request ++ [ReqEntry.close])
      = (js.map g).map RespEntry.response
    ∧ terminalCount (loop host worker_num callback context pre_fn post_fn
        (js.map ReqEntry.request ++ [ReqEntry.close])) = 0 := by
  have h := loop_post_err host worker_num callback context pre_fn post_fn
    dctx g e js hpre hcb hpost
  exact ⟨h, by rw [h]; exact terminalCount_map_response _⟩

/-- C7 witness: a failing teardown after one successful job leaves only the
Response on the queue and no terminal message at all. -/
theorem C7_witness :
    loop () 0 addCb 0 incPre errPost [ReqEntry.request 1, ReqEntry.close]
      = [RespEntry.response 2]
    ∧ terminalCount (loop () 0 addCb 0 incPre errPost
        [ReqEntry.request 1, ReqEntry.close]) = 0 :=
  C7_teardown_swallowed () 0 addCb 0 incPre errPost 1 (fun a => 1 + a) [1]
    "teardown failed" rfl (fun a _ => rfl) rfl

/-- C8: when the next dequeued message is an Error, `receive` raises a
pool-fatal exception whose text is built from the failing worker's index and
the original failure text, and the pool's `erred` flag is set. -/
theorem C8_error_fatal (st : ProcessPool γ ε) (block : Bool)
    (timeout : Option Nat) (worker_num : Nat) (s : String)
    (rest : List (RespEntry γ ε))
    (h : st.responses = RespEntry.error worker_num s :: rest) :
    ProcessPool.get st block timeout
      = GetResult.fatal (errorFromWorker worker_num s)
          { st with responses := rest, erred := true }
    ∧ ({ st with responses := rest, erred := true } : ProcessPool γ ε).erred = true
    ∧ errorFromWorker worker_num s
        = "error from worker " ++ toString worker_num ++ ": " ++ s := by
  refine ⟨?_, rfl, rfl⟩
  simp [ProcessPool.get, h]

/-- C8 witness: a queued Error from worker 0 with text "boom" makes get
raise the formatted pool-fatal message and set `erred`. -/
theorem C8_witness :
    ProcessPool.get
        (⟨1, [RespEntry.error 0 "boom", RespEntry.response (7 : Nat)], false,
          false⟩ : ProcessPool Nat Nat) true none
      = GetResult.fatal (errorFromWorker 0 "boom")
          ⟨1, [RespEntry.response 7], false, true⟩
    ∧ errorFromWorker 0 "boom" = "error from worker 0: boom" := by
  have h := C8_error_fatal
    (⟨1, [RespEntry.error 0 "boom", RespEntry.response (7 : Nat)], false,
      false⟩ : ProcessPool Nat Nat) true none 0 "boom"
    [RespEntry.response 7] rfl
  exact ⟨h.1, h.2.2⟩

/-- C9: a setup or teardown function that cannot be pickled makes
`make_pool` raise the corresponding `ValueError` before either pool variant
(and hence any worker) is created; `pre_fn` is probed first. -/
theorem C9_failfast_construction (host : η) (jobs : Nat)
    (callback : δ → β → Except String γ) (context : α)
    (pre_fn : η → Nat → α → Except String δ) (post_fn : δ → Except String ε)
    (postPk : Bool) :
    make_pool host jobs callback context pre_fn post_fn false postPk
      = Except.error "pre_fn passed to make_pool is not picklable"
    ∧ make_pool host jobs callback context pre_fn post_fn true false
      = Except.error "post_fn passed to make_pool is not picklable" :=
  ⟨rfl, rfl⟩

/-- C10: `AsyncPool.get` on a pool with no unconsumed message raises an
IndexError (pop from an empty list), whatever `block`/`timeout` are. -/
theorem C10_get_empty (p : AsyncPool η α β γ δ ε) (block : Bool)
    (timeout : Option Nat) (h : p.msgs = []) :
    AsyncPool.get p block timeout = AsyncGetResult.indexError := by
  simp [AsyncPool.get, h]

/-- C10 witness: a concrete empty in-process pool raises IndexError both
with blocking enabled and with a finite timeout. -/
theorem C10_witness :
    AsyncPool.get emptyAsyncPool false (some 7) = AsyncGetResult.indexError
    ∧ AsyncPool.get emptyAsyncPool true none = AsyncGetResult.indexError :=
  ⟨C10_get_empty emptyAsyncPool false (some 7) rfl,
   C10_get_empty emptyAsyncPool true none rfl⟩

end Typ
